import Mathlib

/-!
Shallow embedding of the detection-fusion module `ml/detection_merger.py`
(IntoAEC repository): IoU box geometry, class-name normalization, greedy
IoU-based detection merging, and the combined summary, together with
theorems checking the specified properties.

Numeric values (pixel coordinates, confidences, weights) are embedded as
rationals; Python strings are embedded as Lean strings with ASCII
lower-casing, the character set these class names live in.
-/

namespace DetectionMerger

/-! ### String primitives

`lowerTrim` models `class_name.lower().strip()`; `containsStr` models the
Python substring test `keyword in normalized`; `titleCase` models
`str.title()`. All are defined on the underlying character lists.
-/

/-- Python whitespace stripped by `str.strip()`. -/
def isSpaceChar (c : Char) : Bool :=
  c == ' ' || c == '\t' || c == '\n' || c == '\r' || c == '\x0b' || c == '\x0c'

/-- Python `str.strip()` on a character list: drop whitespace from both ends. -/
def trimChars (l : List Char) : List Char :=
  ((l.dropWhile isSpaceChar).reverse.dropWhile isSpaceChar).reverse

/-- The `class_name.lower().strip()` step (line 58 of the source). -/
def lowerTrim (s : String) : String :=
  String.mk (trimChars (s.data.map Char.toLower))

/-- Does the second list start with the first one? Helper for `containsStr`. -/
def leadEq : List Char → List Char → Bool
  | [], _ => true
  | _ :: _, [] => false
  | a :: as, b :: bs => a == b && leadEq as bs

/-- Is `needle` a contiguous sublist of `hay`? -/
def subAux (needle : List Char) : List Char → Bool
  | [] => needle.isEmpty
  | c :: rest => leadEq needle (c :: rest) || subAux needle rest

/-- The Python substring test `needle in hay`. -/
def containsStr (hay needle : String) : Bool :=
  subAux needle.data hay.data

/-- Python `str.title()`: upper-case the first character of every alphabetic run,
lower-case the rest (state: was the previous character alphabetic?). -/
def titleAux : Bool → List Char → List Char
  | _, [] => []
  | prevAlpha, c :: rest =>
    (if c.isAlpha then (if prevAlpha then c.toLower else c.toUpper) else c)
      :: titleAux c.isAlpha rest

/-- Python `str.title()` as used on the merged class name (source line 243). -/
def titleCase (s : String) : String :=
  String.mk (titleAux false s.data)

/-! ### ClassNormalizer: `normalize_class_name` (source lines 46-110) -/

/-- The inner `for keyword in keywords: if keyword in normalized` test. -/
def matchesAnyKeyword (n : String) (kws : List String) : Bool :=
  kws.any (fun k => containsStr n k)

/-- The ordered pattern table of `normalize_class_name` (source lines 62-77). -/
def pattern_mappings : List (List String × String) :=
  [ (["bedroom", "bed room"], "bedroom"),
    (["bathroom", "bath room", "restroom", "washroom", "wc", "toilet", "lavatory"], "toilet"),
    (["kitchen", "kitchenette"], "kitchen"),
    (["living room", "livingroom", "lounge", "family room"], "living room"),
    (["dining room", "diningroom", "dining area", "dining table"], "dining room"),
    (["balcony", "terrace", "patio"], "bedroom"),
    (["foyer", "entry", "entrance", "hallway", "corridor"], "bedroom"),
    (["closet", "wardrobe", "storage"], "cabinet"),
    (["office", "study"], "room"),
    (["laundry", "utility"], "room"),
    (["couch", "sofa"], "sofa"),
    (["potted plant", "plant"], "room") ]

/-- The double loop over `pattern_mappings` (source lines 80-83): first rule
whose keyword set matches wins. -/
def scanPatterns (n : String) : List (List String × String) → Option String
  | [] => none
  | (kws, canon) :: rest =>
    if matchesAnyKeyword n kws then some canon else scanPatterns n rest

/-- The `exact_synonyms` dictionary (source lines 86-103), as an association
list in insertion order (all keys distinct). -/
def exact_synonyms : List (String × String) :=
  [ ("wc", "toilet"),
    ("door", "door"),
    ("window", "window"),
    ("wall", "wall"),
    ("room", "room"),
    ("table", "table"),
    ("chair", "chair"),
    ("bed", "bed"),
    ("sofa", "sofa"),
    ("refrigerator", "refrigerator"),
    ("fridge", "refrigerator"),
    ("sink", "sink"),
    ("stairs", "stairs"),
    ("staircase", "stairs"),
    ("counter", "counter"),
    ("countertop", "counter") ]

/-- The function `normalize_class_name` (source lines 46-110): lower-case and trim, scan the
ordered pattern table first-match-wins, fall back to the exact-synonym table,
otherwise return the lower-cased trimmed string unchanged. -/
def normalize_class_name (class_name : String) : String :=
  let normalized := lowerTrim class_name
  match scanPatterns normalized pattern_mappings with
  | some canonical_name => canonical_name
  | none =>
    match exact_synonyms.lookup normalized with
    | some syn => syn
    | none => normalized

/-- The function `are_same_class` (source lines 113-124). -/
def are_same_class (class1 class2 : String) : Bool :=
  normalize_class_name class1 == normalize_class_name class2

/-! ### BoxGeometry: `calculate_iou` (source lines 9-43) -/

/-- A bounding box `{x1, y1, x2, y2}`, coordinates embedded as rationals. -/
structure BBox where
  x1 : ℚ
  y1 : ℚ
  x2 : ℚ
  y2 : ℚ
deriving DecidableEq, Repr

/-- The Python builtin `max` on two numbers (first argument wins a tie). -/
def pyMax (a b : ℚ) : ℚ := if b ≤ a then a else b

/-- The Python builtin `min` on two numbers (first argument wins a tie). -/
def pyMin (a b : ℚ) : ℚ := if a ≤ b then a else b

/-- The function `calculate_iou` (source lines 9-43): intersection over union with the two
early returns of the source (empty intersection, zero union). -/
def calculate_iou (box1 box2 : BBox) : ℚ :=
  let x_left := pyMax box1.x1 box2.x1
  let y_top := pyMax box1.y1 box2.y1
  let x_right := pyMin box1.x2 box2.x2
  let y_bottom := pyMin box1.y2 box2.y2
  if x_right < x_left ∨ y_bottom < y_top then 0
  else
    let intersection_area := (x_right - x_left) * (y_bottom - y_top)
    let box1_area := (box1.x2 - box1.x1) * (box1.y2 - box1.y1)
    let box2_area := (box2.x2 - box2.x1) * (box2.y2 - box2.y1)
    let union_area := box1_area + box2_area - intersection_area
    if union_area = 0 then 0
    else intersection_area / union_area

/-! ### DetectionFuser: `merge_detections` (source lines 127-248)

An input detection record carries `class_name`, optional `class_id`
(`-1` when absent), `confidence`, `bbox` and optional `fuzzy_score`;
`merge_detections` first tags every record with its source name and
weighted confidence (source lines 162-184). -/

/-- One raw detection as consumed by `merge_detections`. -/
structure RawDet where
  class_name : String
  class_id : Int
  confidence : ℚ
  bbox : BBox
  fuzzy_score : Option ℚ
deriving DecidableEq, Repr

/-- A raw detection tagged with `source` and `weighted_confidence`
(source lines 165-184). -/
structure TaggedDet extends RawDet where
  source : String
  weighted_confidence : ℚ
deriving DecidableEq, Repr

/-- The per-model confidence weights (source lines 155-160). -/
structure Weights where
  yolo : ℚ
  detectron2 : ℚ
  floorplan : ℚ
deriving DecidableEq, Repr

/-- The default `confidence_weight` mapping (source lines 156-160). -/
def defaultWeights : Weights := ⟨1, 1, 9 / 10⟩

/-- Tag one source list (one of the three loops at source lines 165-184). -/
def tagDets (source : String) (weight : ℚ) (dets : List RawDet) : List TaggedDet :=
  dets.map fun det =>
    { toRawDet := det, source := source, weighted_confidence := det.confidence * weight }

/-- The flattened `all_detections` list (source lines 163-184). -/
def allDetections (yolo_detections detectron2_detections floorplan_detections : List RawDet)
    (w : Weights) : List TaggedDet :=
  tagDets "yolo" w.yolo yolo_detections ++
    tagDets "detectron2" w.detectron2 detectron2_detections ++
      tagDets "floorplan" w.floorplan floorplan_detections

/-- Insert into a descending-by-`weighted_confidence` list, before the first
element of smaller-or-equal weight. -/
def insertByWeighted (x : TaggedDet) : List TaggedDet → List TaggedDet
  | [] => [x]
  | e :: rest =>
    if e.weighted_confidence ≤ x.weighted_confidence then x :: e :: rest
    else e :: insertByWeighted x rest

/-- The sort `all_detections.sort(key=lambda x: x["weighted_confidence"], reverse=True)`
(source line 190). Python's sort is stable and a stable sort by a fixed key is
unique, so this stable insertion sort computes the same list. -/
def sortByWeightedDesc (l : List TaggedDet) : List TaggedDet :=
  l.foldr insertByWeighted []

/-- Python dict assignment `d[k] = v` on an association list in insertion
order: overwrite in place if the key exists, else append. -/
def dictInsert (k : String) (v : ℚ) : List (String × ℚ) → List (String × ℚ)
  | [] => [(k, v)]
  | (k0, v0) :: rest => if k0 == k then (k0, v) :: rest else (k0, v0) :: dictInsert k v rest

/-- The mutable `merged_det` dictionary while a cluster is being built
(source lines 200-208); `num_models_detected` is only added at the end. -/
structure ClusterState where
  class_name : String
  class_id : Int
  confidence : ℚ
  bbox : BBox
  sources : List String
  source_confidences : List (String × ℚ)
  fuzzy_score : Option ℚ
deriving DecidableEq, Repr

/-- A finalized merged detection (source lines 242-244 add the two extra
fields to the cluster dictionary). -/
structure MergedDet extends ClusterState where
  num_models_detected : Nat
deriving DecidableEq, Repr

/-- The initial cluster state seeded by `det1` (source lines 200-208). -/
def initialCluster (det1 : TaggedDet) : ClusterState :=
  { class_name := det1.class_name
    class_id := det1.class_id
    confidence := det1.confidence
    bbox := det1.bbox
    sources := [det1.source]
    source_confidences := [(det1.source, det1.confidence)]
    fuzzy_score := det1.fuzzy_score }

/-- Absorb the matching detection `det2` into the cluster (source lines
226-238): append its source, overwrite its slot in `source_confidences`,
recompute `confidence` as the mean of the stored values, and keep the larger
`fuzzy_score` when both exist. -/
def absorbOne (merged_det : ClusterState) (det2 : TaggedDet) : ClusterState :=
  let scs := dictInsert det2.source det2.confidence merged_det.source_confidences
  { merged_det with
    sources := merged_det.sources ++ [det2.source]
    source_confidences := scs
    confidence := (scs.map Prod.snd).sum / (scs.length : ℚ)
    fuzzy_score :=
      match det2.fuzzy_score, merged_det.fuzzy_score with
      | none, old => old
      | some f, none => some f
      | some f, some g => some (pyMax g f) }

/-- Finalization of a cluster (source lines 242-244): canonical title-cased
class name and `num_models_detected = len(sources)`. -/
def finalizeCluster (c : ClusterState) : MergedDet :=
  { toClusterState :=
      { c with class_name := titleCase (normalize_class_name c.class_name) }
    num_models_detected := c.sources.length }

/-- The inner-loop merge test (source lines 217-224): same canonical class and
`iou > iou_threshold`. It depends only on the seed `det1`, never on the
evolving cluster state. -/
def matchesSeed (iou_threshold : ℚ) (det1 det2 : TaggedDet) : Bool :=
  are_same_class det1.class_name det2.class_name &&
    decide (iou_threshold < calculate_iou det1.bbox det2.bbox)

/-- The double loop of source lines 195-246 over the sorted list with its
`used_indices` set, written as explicit consumption: the first unconsumed
detection seeds a cluster, every later unconsumed detection matching the seed
is absorbed (the match test only reads the seed), and the loop continues on
the unabsorbed remainder. Each emitted pair is (seed, absorbed candidates in
list order). -/
def greedyClusters (iou_threshold : ℚ) : List TaggedDet → List (TaggedDet × List TaggedDet)
  | [] => []
  | det1 :: rest =>
    (det1, rest.filter (fun det2 => matchesSeed iou_threshold det1 det2)) ::
      greedyClusters iou_threshold (rest.filter (fun det2 => !matchesSeed iou_threshold det1 det2))
termination_by l => l.length
decreasing_by
  simp only [List.length_cons]
  exact Nat.lt_succ_of_le (List.length_filter_le _ _)

/-- Build one merged detection from a seed and its absorbed candidates:
the seed initializes the cluster (lines 200-208), each absorbed candidate is
folded in (lines 226-240), then the cluster is finalized (lines 242-244). -/
def buildCluster (seed : TaggedDet) (absorbed : List TaggedDet) : MergedDet :=
  finalizeCluster (absorbed.foldl absorbOne (initialCluster seed))

/-- The clustering stage of `merge_detections` on the tagged, sorted input. -/
def mergeClusters (yolo_detections detectron2_detections floorplan_detections : List RawDet)
    (iou_threshold : ℚ) (confidence_weight : Weights) : List (TaggedDet × List TaggedDet) :=
  greedyClusters iou_threshold
    (sortByWeightedDesc
      (allDetections yolo_detections detectron2_detections floorplan_detections confidence_weight))

/-- The function `merge_detections` (source lines 127-248): tag and flatten the three input
lists, return `[]` when empty (line 186), sort by weighted confidence
descending (line 190), then run the greedy clustering loop and finalize each
cluster. -/
def merge_detections (yolo_detections detectron2_detections floorplan_detections : List RawDet)
    (iou_threshold : ℚ) (confidence_weight : Weights) : List MergedDet :=
  let all_detections :=
    allDetections yolo_detections detectron2_detections floorplan_detections confidence_weight
  if all_detections.isEmpty then []
  else
    (greedyClusters iou_threshold (sortByWeightedDesc all_detections)).map
      fun c => buildCluster c.1 c.2

/-! ### SummaryBuilder: `get_combined_summary` (source lines 544-580)

The three counting dictionaries are association lists in insertion order.
`detections_by_class` uses init-to-0-then-increment; `detections_by_source_count`
uses `d.get(num, 0) + 1`; both append a fresh key at the end. The
`model_contributions` update `model_contributions[source] += 1` raises a
`KeyError` for a source outside its fixed keys, so that update — and the whole
summary — is embedded as `Option`-valued, `none` modelling the raised error. -/

/-- Increment the counter for key `k`, appending `(k, 1)` when absent (the
`if class_name not in d: d[class_name] = 0` / `d.get(num, 0) + 1` patterns,
source lines 561-567). -/
def bumpKey [BEq α] (k : α) : List (α × Nat) → List (α × Nat)
  | [] => [(k, 1)]
  | (k0, v) :: rest => if k0 == k then (k0, v + 1) :: rest else (k0, v) :: bumpKey k rest

/-- Increment the counter for key `k`, failing (`KeyError`) when `k` is
absent (the `model_contributions[source] += 1` update, source line 571). -/
def bumpExisting [BEq α] (k : α) : List (α × Nat) → Option (List (α × Nat))
  | [] => none
  | (k0, v) :: rest =>
    if k0 == k then some ((k0, v + 1) :: rest)
    else (bumpExisting k rest).map (fun r => (k0, v) :: r)

/-- The summary dictionary returned at source lines 573-580. -/
structure Summary where
  total_detections : Nat
  detections_by_class : List (String × Nat)
  detections_by_source_count : List (Nat × Nat)
  model_contributions : List (String × Nat)
  detection_details : List MergedDet
  unique_classes : Nat
deriving DecidableEq, Repr

/-- One iteration of the `for det in merged_detections` loop (source lines
558-571) over the state (by-class, by-source-count, contributions). -/
def summaryStep (st : List (String × Nat) × List (Nat × Nat) × List (String × Nat))
    (det : MergedDet) :
    Option (List (String × Nat) × List (Nat × Nat) × List (String × Nat)) :=
  (det.sources.foldlM (fun mc s => bumpExisting s mc) st.2.2).map
    (fun mc => (bumpKey det.class_name st.1, bumpKey det.num_models_detected st.2.1, mc))

/-- The function `get_combined_summary` (source lines 544-580) with its initial
dictionaries `{1: 0, 2: 0, 3: 0}` and zeroed `model_contributions`. -/
def get_combined_summary (merged_detections : List MergedDet) : Option Summary :=
  (merged_detections.foldlM summaryStep
      ([], [(1, 0), (2, 0), (3, 0)], [("yolo", 0), ("detectron2", 0), ("floorplan", 0)])).map
    (fun st =>
      { total_detections := merged_detections.length
        detections_by_class := st.1
        detections_by_source_count := st.2.1
        model_contributions := st.2.2
        detection_details := merged_detections
        unique_classes := st.1.length })

/-- Sum of the counters of a counting dictionary (`sum(d.values())`). -/
def sumVals (d : List (α × Nat)) : Nat :=
  (d.map Prod.snd).sum

/-! ### Concrete fixtures for the specified scenarios -/

/-- Scenario fixture: source A (yolo) reports `door` at `(100,100,200,200)`
with confidence `0.90`. -/
def doorDetA : RawDet :=
  { class_name := "door", class_id := -1, confidence := 9 / 10,
    bbox := ⟨100, 100, 200, 200⟩, fuzzy_score := none }

/-- Scenario fixture: source B (detectron2) reports `door` at
`(105,102,198,199)` with confidence `0.80`. -/
def doorDetB : RawDet :=
  { class_name := "door", class_id := -1, confidence := 8 / 10,
    bbox := ⟨105, 102, 198, 199⟩, fuzzy_score := none }

/-- The single merged cluster the door scenario is specified to produce. -/
def mergedDoorAB : MergedDet :=
  { class_name := "Door", class_id := -1, confidence := 17 / 20,
    bbox := ⟨100, 100, 200, 200⟩, sources := ["yolo", "detectron2"],
    source_confidences := [("yolo", 9 / 10), ("detectron2", 8 / 10)],
    fuzzy_score := none, num_models_detected := 2 }

/-- Fixture: a yolo `door` detection at `(0,0,10,10)`, confidence `0.90`. -/
def doorDupHi : RawDet :=
  { class_name := "door", class_id := -1, confidence := 9 / 10,
    bbox := ⟨0, 0, 10, 10⟩, fuzzy_score := none }

/-- Fixture: a second yolo `door` detection at the same box, confidence
`0.80`. -/
def doorDupLo : RawDet :=
  { class_name := "door", class_id := -1, confidence := 8 / 10,
    bbox := ⟨0, 0, 10, 10⟩, fuzzy_score := none }

/-- The cluster actually produced when both overlapping doors come from the
same source: `yolo` appears twice in `sources`, its confidence slot is
overwritten, and the mean is taken over the single stored value. -/
def mergedDoorDup : MergedDet :=
  { class_name := "Door", class_id := -1, confidence := 8 / 10,
    bbox := ⟨0, 0, 10, 10⟩, sources := ["yolo", "yolo"],
    source_confidences := [("yolo", 8 / 10)],
    fuzzy_score := none, num_models_detected := 2 }

/-- Scenario fixture: source A reports `wall` at `(0,0,50,10)`. -/
def wallDet : RawDet :=
  { class_name := "wall", class_id := -1, confidence := 9 / 10,
    bbox := ⟨0, 0, 50, 10⟩, fuzzy_score := none }

/-- Scenario fixture: source B reports `window` at the same `(0,0,50,10)`. -/
def windowDet : RawDet :=
  { class_name := "window", class_id := -1, confidence := 8 / 10,
    bbox := ⟨0, 0, 50, 10⟩, fuzzy_score := none }

/-- The singleton wall cluster of the class-mismatch scenario. -/
def mergedWall : MergedDet :=
  { class_name := "Wall", class_id := -1, confidence := 9 / 10,
    bbox := ⟨0, 0, 50, 10⟩, sources := ["yolo"],
    source_confidences := [("yolo", 9 / 10)],
    fuzzy_score := none, num_models_detected := 1 }

/-- The singleton window cluster of the class-mismatch scenario. -/
def mergedWindow : MergedDet :=
  { class_name := "Window", class_id := -1, confidence := 8 / 10,
    bbox := ⟨0, 0, 50, 10⟩, sources := ["detectron2"],
    source_confidences := [("detectron2", 8 / 10)],
    fuzzy_score := none, num_models_detected := 1 }

/-- Fixture: a detection with a degenerate box (`x2 = x1`). -/
def degDet : RawDet :=
  { class_name := "door", class_id := -1, confidence := 9 / 10,
    bbox := ⟨5, 5, 5, 10⟩, fuzzy_score := none }

/-- Fixture `degDet` as tagged by `merge_detections` for the yolo list with unit
weight. -/
def degTagged : TaggedDet :=
  { toRawDet := degDet, source := "yolo", weighted_confidence := 9 / 10 }

end DetectionMerger

namespace DetectionMerger

/-! ## Theorems -/

theorem pyMax_eq_max (a b : ℚ) : pyMax a b = max a b := by
  unfold pyMax
  rw [max_def]
  split_ifs with h1 h2 h2 <;> first | rfl | exact le_antisymm h2 h1 | exact absurd (le_of_not_le h1) h2

theorem pyMin_eq_min (a b : ℚ) : pyMin a b = min a b := by
  unfold pyMin
  rw [min_def]

/-- IoU is symmetric in its two boxes. -/
theorem calculate_iou_comm (a b : BBox) : calculate_iou a b = calculate_iou b a := by
  simp only [calculate_iou, pyMax_eq_max, pyMin_eq_min]
  rw [max_comm b.x1 a.x1, max_comm b.y1 a.y1, min_comm b.x2 a.x2, min_comm b.y2 a.y2,
    add_comm ((b.x2 - b.x1) * (b.y2 - b.y1)) ((a.x2 - a.x1) * (a.y2 - a.y1))]

/-- IoU always lands in the unit interval, degenerate boxes included. -/
theorem calculate_iou_nonneg_le_one (a b : BBox) :
    0 ≤ calculate_iou a b ∧ calculate_iou a b ≤ 1 := by
  simp only [calculate_iou, pyMax_eq_max, pyMin_eq_min]
  split_ifs with h1 h2
  · norm_num
  · norm_num
  · push_neg at h1
    obtain ⟨hx, hy⟩ := h1
    have hyI : (0 : ℚ) ≤ min a.y2 b.y2 - max a.y1 b.y1 := sub_nonneg.mpr hy
    have hxI : (0 : ℚ) ≤ min a.x2 b.x2 - max a.x1 b.x1 := sub_nonneg.mpr hx
    have hI : (0 : ℚ) ≤ (min a.x2 b.x2 - max a.x1 b.x1) * (min a.y2 b.y2 - max a.y1 b.y1) :=
      mul_nonneg hxI hyI
    have hxA : (0 : ℚ) ≤ a.x2 - a.x1 :=
      sub_nonneg.mpr (le_trans (le_max_left _ _) (le_trans hx (min_le_left _ _)))
    have hxB : (0 : ℚ) ≤ b.x2 - b.x1 :=
      sub_nonneg.mpr (le_trans (le_max_right _ _) (le_trans hx (min_le_right _ _)))
    have hIA : (min a.x2 b.x2 - max a.x1 b.x1) * (min a.y2 b.y2 - max a.y1 b.y1) ≤
        (a.x2 - a.x1) * (a.y2 - a.y1) :=
      mul_le_mul (sub_le_sub (min_le_left _ _) (le_max_left _ _))
        (sub_le_sub (min_le_left _ _) (le_max_left _ _)) hyI hxA
    have hIB : (min a.x2 b.x2 - max a.x1 b.x1) * (min a.y2 b.y2 - max a.y1 b.y1) ≤
        (b.x2 - b.x1) * (b.y2 - b.y1) :=
      mul_le_mul (sub_le_sub (min_le_right _ _) (le_max_right _ _))
        (sub_le_sub (min_le_right _ _) (le_max_right _ _)) hyI hxB
    have hU : (min a.x2 b.x2 - max a.x1 b.x1) * (min a.y2 b.y2 - max a.y1 b.y1) ≤
        (a.x2 - a.x1) * (a.y2 - a.y1) + (b.x2 - b.x1) * (b.y2 - b.y1) -
          (min a.x2 b.x2 - max a.x1 b.x1) * (min a.y2 b.y2 - max a.y1 b.y1) := by
      linarith
    have hU0 : (0 : ℚ) < (a.x2 - a.x1) * (a.y2 - a.y1) + (b.x2 - b.x1) * (b.y2 - b.y1) -
        (min a.x2 b.x2 - max a.x1 b.x1) * (min a.y2 b.y2 - max a.y1 b.y1) :=
      lt_of_le_of_ne (le_trans hI hU) (Ne.symm h2)
    exact ⟨div_nonneg hI hU0.le, (div_le_one hU0).mpr hU⟩

/-- IoU of a box with positive area against itself is `1`. -/
theorem calculate_iou_self (a : BBox) (h1 : a.x1 < a.x2) (h2 : a.y1 < a.y2) :
    calculate_iou a a = 1 := by
  simp only [calculate_iou, pyMax_eq_max, pyMin_eq_min, max_self, min_self]
  rw [if_neg (by push_neg; exact ⟨h1.le, h2.le⟩)]
  have hA : (0 : ℚ) < (a.x2 - a.x1) * (a.y2 - a.y1) :=
    mul_pos (by linarith) (by linarith)
  have heq : (a.x2 - a.x1) * (a.y2 - a.y1) + (a.x2 - a.x1) * (a.y2 - a.y1) -
      (a.x2 - a.x1) * (a.y2 - a.y1) = (a.x2 - a.x1) * (a.y2 - a.y1) := by
    ring
  rw [heq, if_neg hA.ne', div_self hA.ne']

/-- IoU of a degenerate (empty or inverted) box against anything is `0`. -/
theorem calculate_iou_degenerate (a b : BBox) (h : a.x2 ≤ a.x1 ∨ a.y2 ≤ a.y1) :
    calculate_iou a b = 0 := by
  simp only [calculate_iou, pyMax_eq_max, pyMin_eq_min]
  split_ifs with h1 h2
  · rfl
  · rfl
  · push_neg at h1
    obtain ⟨hx, hy⟩ := h1
    rcases h with h | h
    · have hxx : min a.x2 b.x2 = max a.x1 b.x1 :=
        le_antisymm (le_trans (min_le_left _ _) (le_trans h (le_max_left _ _))) hx
      rw [hxx, sub_self, zero_mul, zero_div]
    · have hyy : min a.y2 b.y2 = max a.y1 b.y1 :=
        le_antisymm (le_trans (min_le_left _ _) (le_trans h (le_max_left _ _))) hy
      rw [hyy, sub_self, mul_zero, zero_div]

/-- IoU of anything against a degenerate box is `0`. -/
theorem calculate_iou_degenerate_right (a b : BBox) (h : b.x2 ≤ b.x1 ∨ b.y2 ≤ b.y1) :
    calculate_iou a b = 0 := by
  rw [calculate_iou_comm]
  exact calculate_iou_degenerate b a h

/-- A canonical name produced by the pattern scan is one of the table's
right-hand sides. -/
theorem scanPatterns_mem :
    ∀ (l : List (List String × String)) (n c : String),
      scanPatterns n l = some c → c ∈ l.map Prod.snd := by
  intro l
  induction l with
  | nil =>
    intro n c h
    simp [scanPatterns] at h
  | cons p rest ih =>
    intro n c h
    obtain ⟨kws, canon⟩ := p
    by_cases hm : matchesAnyKeyword n kws
    · rw [scanPatterns, if_pos hm] at h
      simp only [Option.some.injEq] at h
      subst h
      simp
    · rw [scanPatterns, if_neg hm] at h
      simp [ih n c h]

/-- A value returned by association-list lookup is one of the stored values. -/
theorem lookup_mem :
    ∀ (l : List (String × String)) (k v : String),
      List.lookup k l = some v → v ∈ l.map Prod.snd := by
  intro l
  induction l with
  | nil =>
    intro k v h
    simp [List.lookup] at h
  | cons p rest ih =>
    intro k v h
    obtain ⟨k0, v0⟩ := p
    rw [List.lookup] at h
    split at h
    · simp only [Option.some.injEq] at h
      subst h
      simp
    · simp [ih k v h]

/-- ASCII lower-casing is idempotent character by character. -/
theorem toLower_toLower (c : Char) : c.toLower.toLower = c.toLower := by
  simp only [Char.toLower]
  split
  case isTrue h =>
    have hv : (c.toNat + 32).isValidChar := by
      left
      omega
    have ht : (Char.ofNat (c.toNat + 32)).toNat = c.toNat + 32 := by
      rw [Char.ofNat, dif_pos hv]
      rfl
    rw [if_neg]
    rw [ht]
    omega
  case isFalse h => rfl

/-- A list whose characters are all fixed by `Char.toLower` is fixed by the
map. -/
theorem map_toLower_eq_self :
    ∀ (l : List Char), (∀ c ∈ l, c.toLower = c) → l.map Char.toLower = l := by
  intro l
  induction l with
  | nil => intro _; rfl
  | cons c rest ih =>
    intro h
    simp only [List.map_cons, h c (by simp)]
    rw [ih (fun d hd => h d (by simp [hd]))]

/-- Trimming only removes characters. -/
theorem mem_of_mem_trimChars {c : Char} {l : List Char} (h : c ∈ trimChars l) : c ∈ l := by
  unfold trimChars at h
  rw [List.mem_reverse] at h
  have h1 : c ∈ (l.dropWhile isSpaceChar).reverse := (List.dropWhile_sublist _).subset h
  rw [List.mem_reverse] at h1
  exact (List.dropWhile_sublist _).subset h1

/-- The head surviving a `dropWhile` fails the predicate. -/
theorem head?_dropWhile_false {p : α → Bool} :
    ∀ {l : List α} {c : α}, (l.dropWhile p).head? = some c → p c = false := by
  intro l
  induction l with
  | nil =>
    intro c h
    simp at h
  | cons a rest ih =>
    intro c h
    rw [List.dropWhile_cons] at h
    by_cases hp : p a
    · rw [if_pos hp] at h
      exact ih h
    · rw [if_neg hp] at h
      simp only [List.head?_cons, Option.some.injEq] at h
      subst h
      exact Bool.eq_false_iff.mpr hp

/-- A `dropWhile` is the identity when the head already fails the predicate. -/
theorem dropWhile_eq_self_of_head? {p : α → Bool} {l : List α}
    (h : ∀ c, l.head? = some c → p c = false) : l.dropWhile p = l := by
  cases l with
  | nil => rfl
  | cons a rest =>
    rw [List.dropWhile_cons, if_neg]
    simp [h a rfl]

/-- A non-empty `dropWhile` keeps the last element. -/
theorem getLast?_dropWhile {p : α → Bool} :
    ∀ (l : List α), l.dropWhile p ≠ [] → (l.dropWhile p).getLast? = l.getLast? := by
  intro l
  induction l with
  | nil =>
    intro h
    simp at h
  | cons a rest ih =>
    intro h
    rw [List.dropWhile_cons] at h ⊢
    by_cases hp : p a
    · rw [if_pos hp] at h ⊢
      have hrest : rest ≠ [] := by
        intro he
        subst he
        simp [List.dropWhile] at h
      obtain ⟨b, l2, rfl⟩ := List.exists_cons_of_ne_nil hrest
      rw [ih h, List.getLast?_cons_cons]
    · rw [if_neg hp]

/-- Trimming an already-trimmed character list changes nothing. -/
theorem trimChars_idem (l : List Char) : trimChars (trimChars l) = trimChars l := by
  unfold trimChars
  have h1 : ((((l.dropWhile isSpaceChar).reverse.dropWhile isSpaceChar).reverse).dropWhile
      isSpaceChar) = ((l.dropWhile isSpaceChar).reverse.dropWhile isSpaceChar).reverse := by
    apply dropWhile_eq_self_of_head?
    intro c hc
    rw [List.head?_reverse] at hc
    have hyne : (l.dropWhile isSpaceChar).reverse.dropWhile isSpaceChar ≠ [] := by
      intro h0
      rw [h0] at hc
      simp at hc
    rw [getLast?_dropWhile _ hyne, List.getLast?_reverse] at hc
    exact head?_dropWhile_false hc
  rw [h1, List.reverse_reverse]
  have h2 : ((l.dropWhile isSpaceChar).reverse.dropWhile isSpaceChar).dropWhile isSpaceChar =
      (l.dropWhile isSpaceChar).reverse.dropWhile isSpaceChar := by
    apply dropWhile_eq_self_of_head?
    intro c hc
    exact head?_dropWhile_false hc
  rw [h2]

/-- Lower-case-and-trim is idempotent. -/
theorem lowerTrim_idem (s : String) : lowerTrim (lowerTrim s) = lowerTrim s := by
  unfold lowerTrim
  show String.mk (trimChars ((trimChars (s.data.map Char.toLower)).map Char.toLower)) = _
  have hmap : (trimChars (s.data.map Char.toLower)).map Char.toLower =
      trimChars (s.data.map Char.toLower) := by
    apply map_toLower_eq_self
    intro c hc
    have hc2 := mem_of_mem_trimChars hc
    rw [List.mem_map] at hc2
    obtain ⟨d, _, rfl⟩ := hc2
    exact toLower_toLower d
  rw [hmap, trimChars_idem]

/-- When the pattern scan hits, `normalize_class_name` returns its canonical
name. -/
theorem normalize_eq_of_scan {s c : String}
    (h : scanPatterns (lowerTrim s) pattern_mappings = some c) :
    normalize_class_name s = c := by
  simp only [normalize_class_name]
  rw [h]

/-- When the pattern scan misses and the synonym lookup hits,
`normalize_class_name` returns the synonym. -/
theorem normalize_eq_of_lookup {s c : String}
    (h1 : scanPatterns (lowerTrim s) pattern_mappings = none)
    (h2 : exact_synonyms.lookup (lowerTrim s) = some c) :
    normalize_class_name s = c := by
  simp only [normalize_class_name]
  rw [h1, h2]

/-- When both the pattern scan and the synonym lookup miss,
`normalize_class_name` returns the lower-cased trimmed input. -/
theorem normalize_eq_fallback {s : String}
    (h1 : scanPatterns (lowerTrim s) pattern_mappings = none)
    (h2 : exact_synonyms.lookup (lowerTrim s) = none) :
    normalize_class_name s = lowerTrim s := by
  simp only [normalize_class_name]
  rw [h1, h2]

/-- Every right-hand side of the pattern table is a fixed point of
`normalize_class_name`. -/
theorem pattern_outputs_fixed :
    ∀ x ∈ pattern_mappings.map Prod.snd, normalize_class_name x = x := by
  decide

/-- Every value of the exact-synonym table is a fixed point of
`normalize_class_name`. -/
theorem synonym_outputs_fixed :
    ∀ x ∈ exact_synonyms.map Prod.snd, normalize_class_name x = x := by
  decide

/-- The function `normalize_class_name` is idempotent: every canonical output is a fixed
point. -/
theorem normalize_class_name_idem (s : String) :
    normalize_class_name (normalize_class_name s) = normalize_class_name s := by
  rcases hscan : scanPatterns (lowerTrim s) pattern_mappings with _ | c
  · rcases hlook : exact_synonyms.lookup (lowerTrim s) with _ | v
    · rw [normalize_eq_fallback hscan hlook]
      have hscan2 : scanPatterns (lowerTrim (lowerTrim s)) pattern_mappings = none := by
        rw [lowerTrim_idem]
        exact hscan
      have hlook2 : exact_synonyms.lookup (lowerTrim (lowerTrim s)) = none := by
        rw [lowerTrim_idem]
        exact hlook
      rw [normalize_eq_fallback hscan2 hlook2, lowerTrim_idem]
    · rw [normalize_eq_of_lookup hscan hlook]
      exact synonym_outputs_fixed v (lookup_mem _ _ _ hlook)
  · rw [normalize_eq_of_scan hscan]
    exact pattern_outputs_fixed c (scanPatterns_mem _ _ _ hscan)

/-- Induction principle following the recursion of `greedyClusters`: a
property holds of every input list if it holds of `[]` and is preserved from
the unabsorbed remainder to the full list. -/
theorem greedy_induction (thr : ℚ) (P : List TaggedDet → Prop) (h0 : P [])
    (h1 : ∀ seed rest,
      P (rest.filter fun det2 => !matchesSeed thr seed det2) → P (seed :: rest)) :
    ∀ l, P l := by
  have key : ∀ (n : ℕ) (l : List TaggedDet), l.length ≤ n → P l := by
    intro n
    induction n with
    | zero =>
      intro l hl
      rw [List.length_eq_zero.mp (Nat.le_zero.mp hl)]
      exact h0
    | succ n ih =>
      intro l hl
      cases l with
      | nil => exact h0
      | cons seed rest =>
        apply h1
        have h2 : rest.length ≤ n := by
          simp only [List.length_cons] at hl
          omega
        exact ih _ (le_trans (List.length_filter_le _ _) h2)
  exact fun l => key l.length l le_rfl

/-- Every detection absorbed into a cluster passed the seed's merge test. -/
theorem greedy_absorbed_matches (thr : ℚ) (l : List TaggedDet) :
    ∀ c ∈ greedyClusters thr l, ∀ d ∈ c.2, matchesSeed thr c.1 d = true := by
  refine greedy_induction thr
    (fun l => ∀ c ∈ greedyClusters thr l, ∀ d ∈ c.2, matchesSeed thr c.1 d = true) ?_ ?_ l
  · intro c hc
    simp [greedyClusters] at hc
  · intro seed rest ih c hc d hd
    simp only [greedyClusters, List.mem_cons] at hc
    rcases hc with rfl | hc
    · exact (List.mem_filter.mp hd).2
    · exact ih c hc d hd

/-- The members of the emitted clusters (seed plus absorbed, concatenated)
are a permutation of the input list: greedy clustering consumes every
detection exactly once. -/
theorem greedy_members_perm (thr : ℚ) (l : List TaggedDet) :
    List.Perm (((greedyClusters thr l).map (fun c => c.1 :: c.2)).flatten) l := by
  refine greedy_induction thr
    (fun l => List.Perm (((greedyClusters thr l).map (fun c => c.1 :: c.2)).flatten) l) ?_ ?_ l
  · simp [greedyClusters]
  · intro seed rest ih
    simp only [greedyClusters, List.map_cons, List.flatten_cons, List.cons_append]
    exact ((List.Perm.append_left _ ih).trans (List.filter_append_perm _ rest)).cons seed

/-- Inserting into the sorted-by-weight list is a permutation of consing. -/
theorem insertByWeighted_perm (x : TaggedDet) :
    ∀ (l : List TaggedDet), List.Perm (insertByWeighted x l) (x :: l) := by
  intro l
  induction l with
  | nil => exact List.Perm.refl _
  | cons e rest ih =>
    rw [insertByWeighted]
    by_cases h : e.weighted_confidence ≤ x.weighted_confidence
    · rw [if_pos h]
    · rw [if_neg h]
      exact (ih.cons e).trans (List.Perm.swap x e rest)

/-- The weighted-confidence sort permutes its input. -/
theorem sortByWeightedDesc_perm : ∀ (l : List TaggedDet), List.Perm (sortByWeightedDesc l) l := by
  intro l
  induction l with
  | nil => exact List.Perm.refl _
  | cons x rest ih =>
    unfold sortByWeightedDesc at *
    rw [List.foldr_cons]
    exact (insertByWeighted_perm x _).trans (ih.cons x)

/-- Folding absorptions appends exactly the absorbed sources, in order. -/
theorem foldl_absorb_sources :
    ∀ (abs : List TaggedDet) (init : ClusterState),
      (abs.foldl absorbOne init).sources = init.sources ++ abs.map (fun d => d.source) := by
  intro abs
  induction abs with
  | nil =>
    intro init
    simp
  | cons d rest ih =>
    intro init
    rw [List.foldl_cons, ih]
    simp [absorbOne, List.append_assoc]

/-- Keys present after a Python-dict assignment: the old keys plus the new. -/
theorem dictInsert_keys_mem {a k : String} {v : ℚ} :
    ∀ {d : List (String × ℚ)},
      a ∈ (dictInsert k v d).map Prod.fst ↔ (a ∈ d.map Prod.fst ∨ a = k) := by
  intro d
  induction d with
  | nil => simp [dictInsert]
  | cons p rest ih =>
    obtain ⟨k0, v0⟩ := p
    rw [dictInsert]
    by_cases h : (k0 == k) = true
    · rw [if_pos h]
      have hk : k0 = k := by simpa using h
      subst hk
      simp only [List.map_cons, List.mem_cons]
      tauto
    · rw [if_neg h]
      simp only [List.map_cons, List.mem_cons, ih]
      tauto

/-- A Python-dict assignment keeps the keys distinct. -/
theorem dictInsert_keys_nodup {k : String} {v : ℚ} :
    ∀ {d : List (String × ℚ)},
      (d.map Prod.fst).Nodup → ((dictInsert k v d).map Prod.fst).Nodup := by
  intro d
  induction d with
  | nil =>
    intro _
    simp [dictInsert]
  | cons p rest ih =>
    obtain ⟨k0, v0⟩ := p
    intro hnd
    rw [dictInsert]
    by_cases h : (k0 == k) = true
    · rw [if_pos h]
      simpa using hnd
    · rw [if_neg h]
      simp only [List.map_cons, List.nodup_cons] at hnd ⊢
      obtain ⟨hk0, hrest⟩ := hnd
      refine ⟨?_, ih hrest⟩
      intro hmem
      rcases dictInsert_keys_mem.mp hmem with hmem | heq
      · exact hk0 hmem
      · exact (by simpa using h : k0 ≠ k) heq

/-- Folding absorptions keeps the `source_confidences` keys distinct. -/
theorem foldl_absorb_keys_nodup :
    ∀ (abs : List TaggedDet) (init : ClusterState),
      (init.source_confidences.map Prod.fst).Nodup →
        (((abs.foldl absorbOne init).source_confidences).map Prod.fst).Nodup := by
  intro abs
  induction abs with
  | nil =>
    intro init h
    exact h
  | cons d rest ih =>
    intro init h
    rw [List.foldl_cons]
    apply ih
    simp only [absorbOne]
    exact dictInsert_keys_nodup h

/-- All members of one cluster carry the same canonical class. -/
theorem greedy_same_class (thr : ℚ) (l : List TaggedDet) :
    ∀ c ∈ greedyClusters thr l, ∀ d1 ∈ c.1 :: c.2, ∀ d2 ∈ c.1 :: c.2,
      are_same_class d1.class_name d2.class_name = true := by
  intro c hc d1 hd1 d2 hd2
  have key : ∀ d ∈ c.1 :: c.2,
      normalize_class_name d.class_name = normalize_class_name c.1.class_name := by
    intro d hd
    rcases List.mem_cons.mp hd with rfl | hd
    · rfl
    · have hm := greedy_absorbed_matches thr l c hc d hd
      simp only [matchesSeed, Bool.and_eq_true] at hm
      have hsc := hm.1
      simp only [are_same_class, beq_iff_eq] at hsc
      exact hsc.symm
  simp only [are_same_class, beq_iff_eq]
  rw [key d1 hd1, key d2 hd2]

/-- A degenerate-box detection in the input survives as a cluster that
absorbed nothing. -/
theorem greedy_degenerate_singleton (thr : ℚ) (hthr : 0 ≤ thr) (t : TaggedDet)
    (hdeg : t.bbox.x2 ≤ t.bbox.x1 ∨ t.bbox.y2 ≤ t.bbox.y1) :
    ∀ (l : List TaggedDet), t ∈ l → (t, ([] : List TaggedDet)) ∈ greedyClusters thr l := by
  refine greedy_induction thr (fun l => t ∈ l → (t, []) ∈ greedyClusters thr l) ?_ ?_
  · intro h
    simp at h
  · intro seed rest ih hmem
    simp only [greedyClusters, List.mem_cons]
    rcases List.mem_cons.mp hmem with rfl | hmem
    · left
      have hfil : rest.filter (fun det2 => matchesSeed thr t det2) = [] := by
        rw [List.filter_eq_nil_iff]
        intro a _
        simp [matchesSeed, calculate_iou_degenerate t.bbox a.bbox hdeg, not_lt.mpr hthr]
      rw [hfil]
    · right
      apply ih
      rw [List.mem_filter]
      refine ⟨hmem, ?_⟩
      simp [matchesSeed, calculate_iou_degenerate_right seed.bbox t.bbox hdeg, not_lt.mpr hthr]

/-- A degenerate-box detection is never absorbed into any cluster. -/
theorem greedy_degenerate_not_absorbed (thr : ℚ) (hthr : 0 ≤ thr) (t : TaggedDet)
    (hdeg : t.bbox.x2 ≤ t.bbox.x1 ∨ t.bbox.y2 ≤ t.bbox.y1) (l : List TaggedDet) :
    ∀ c ∈ greedyClusters thr l, t ∉ c.2 := by
  intro c hc ht
  have hm := greedy_absorbed_matches thr l c hc t ht
  simp [matchesSeed, calculate_iou_degenerate_right c.1.bbox t.bbox hdeg,
    not_lt.mpr hthr] at hm

/-- A cluster seeded by a degenerate-box detection absorbs nothing. -/
theorem greedy_degenerate_seed_empty (thr : ℚ) (hthr : 0 ≤ thr) (t : TaggedDet)
    (hdeg : t.bbox.x2 ≤ t.bbox.x1 ∨ t.bbox.y2 ≤ t.bbox.y1) (l : List TaggedDet) :
    ∀ c ∈ greedyClusters thr l, c.1 = t → c.2 = [] := by
  intro c hc h1
  rw [List.eq_nil_iff_forall_not_mem]
  intro d hd
  have hm := greedy_absorbed_matches thr l c hc d hd
  rw [h1] at hm
  simp [matchesSeed, calculate_iou_degenerate t.bbox d.bbox hdeg, not_lt.mpr hthr] at hm

/-- The function `merge_detections` is the finalization map over `mergeClusters`; the
`isEmpty` early return coincides with the general path on empty input. -/
theorem merge_detections_eq (y d2 fp : List RawDet) (thr : ℚ) (w : Weights) :
    merge_detections y d2 fp thr w =
      (mergeClusters y d2 fp thr w).map fun c => buildCluster c.1 c.2 := by
  unfold merge_detections mergeClusters
  by_cases h : allDetections y d2 fp w = []
  · simp [h, sortByWeightedDesc, greedyClusters]
  · simp [List.isEmpty_iff, h]

/-- The sources of a built cluster: the seed's source followed by the
absorbed sources in absorption order. -/
theorem buildCluster_sources (seed : TaggedDet) (abs : List TaggedDet) :
    (buildCluster seed abs).sources = seed.source :: abs.map (fun d => d.source) := by
  simp [buildCluster, finalizeCluster, foldl_absorb_sources, initialCluster]

/-- The field `num_models_detected` of a built cluster counts the seed plus every
absorbed detection (duplicated sources included). -/
theorem buildCluster_num (seed : TaggedDet) (abs : List TaggedDet) :
    (buildCluster seed abs).num_models_detected = 1 + abs.length := by
  simp [buildCluster, finalizeCluster, foldl_absorb_sources, initialCluster]
  omega

/-- The `source_confidences` keys of a built cluster are distinct. -/
theorem buildCluster_keys_nodup (seed : TaggedDet) (abs : List TaggedDet) :
    (((buildCluster seed abs).source_confidences).map Prod.fst).Nodup := by
  have h : (buildCluster seed abs).source_confidences =
      ((abs.foldl absorbOne (initialCluster seed)).source_confidences) := by
    simp [buildCluster, finalizeCluster]
  rw [h]
  exact foldl_absorb_keys_nodup abs (initialCluster seed) (by simp [initialCluster])

/-- Greedy clustering emits at most as many clusters as input detections. -/
theorem greedy_length_le (thr : ℚ) (l : List TaggedDet) :
    (greedyClusters thr l).length ≤ l.length := by
  refine greedy_induction thr (fun l => (greedyClusters thr l).length ≤ l.length) ?_ ?_ l
  · simp [greedyClusters]
  · intro seed rest ih
    simp only [greedyClusters, List.length_cons]
    exact Nat.succ_le_succ (le_trans ih (List.length_filter_le _ _))

/-- Greedy clustering of a non-empty list is non-empty. -/
theorem greedy_ne_nil (thr : ℚ) (l : List TaggedDet) (h : l ≠ []) :
    greedyClusters thr l ≠ [] := by
  cases l with
  | nil => exact absurd rfl h
  | cons seed rest => simp [greedyClusters]

/-- Every tagged detection carries one of the three source tags. -/
theorem allDetections_source (y d2 fp : List RawDet) (w : Weights) :
    ∀ t ∈ allDetections y d2 fp w,
      t.source ∈ (["yolo", "detectron2", "floorplan"] : List String) := by
  intro t ht
  unfold allDetections tagDets at ht
  simp only [List.mem_append, List.mem_map] at ht
  rcases ht with (⟨d, _, rfl⟩ | ⟨d, _, rfl⟩) | ⟨d, _, rfl⟩ <;> simp

/-- Every member (seed or absorbed) of an emitted cluster is an input
detection. -/
theorem mergeClusters_members_mem (y d2 fp : List RawDet) (thr : ℚ) (w : Weights) :
    ∀ c ∈ mergeClusters y d2 fp thr w, ∀ d ∈ c.1 :: c.2, d ∈ allDetections y d2 fp w := by
  intro c hc d hd
  unfold mergeClusters at hc
  have h1 : d ∈ ((greedyClusters thr
      (sortByWeightedDesc (allDetections y d2 fp w))).map (fun c => c.1 :: c.2)).flatten := by
    rw [List.mem_flatten]
    exact ⟨c.1 :: c.2, List.mem_map_of_mem _ hc, hd⟩
  have h2 := (greedy_members_perm thr _).mem_iff.mp h1
  exact (sortByWeightedDesc_perm _).mem_iff.mp h2

/-- Every source recorded in a merged detection is one of the three tags. -/
theorem merged_sources_mem (y d2 fp : List RawDet) (thr : ℚ) (w : Weights) :
    ∀ m ∈ merge_detections y d2 fp thr w, ∀ s ∈ m.sources,
      s ∈ (["yolo", "detectron2", "floorplan"] : List String) := by
  rw [merge_detections_eq]
  intro m hm s hs
  rw [List.mem_map] at hm
  obtain ⟨c, hc, rfl⟩ := hm
  rw [buildCluster_sources, List.mem_cons] at hs
  rcases hs with rfl | hs
  · exact allDetections_source y d2 fp w c.1
      (mergeClusters_members_mem y d2 fp thr w c hc c.1 (by simp))
  · rw [List.mem_map] at hs
    obtain ⟨d, hd, rfl⟩ := hs
    exact allDetections_source y d2 fp w d
      (mergeClusters_members_mem y d2 fp thr w c hc d (by simp [hd]))

/-- Bumping a counting dictionary adds exactly one to the sum of its values. -/
theorem sumVals_bumpKey [BEq α] (k : α) :
    ∀ (d : List (α × Nat)), sumVals (bumpKey k d) = sumVals d + 1 := by
  intro d
  induction d with
  | nil => simp [bumpKey, sumVals]
  | cons p rest ih =>
    obtain ⟨k0, v⟩ := p
    rw [bumpKey]
    by_cases h : (k0 == k) = true
    · rw [if_pos h]
      simp [sumVals]
      omega
    · rw [if_neg h]
      simp [sumVals] at ih ⊢
      omega

/-- Bumping an existing key succeeds and keeps the key set. -/
theorem bumpExisting_some [BEq α] [LawfulBEq α] (k : α) :
    ∀ (d : List (α × Nat)), k ∈ d.map Prod.fst →
      ∃ d2, bumpExisting k d = some d2 ∧ d2.map Prod.fst = d.map Prod.fst := by
  intro d
  induction d with
  | nil =>
    intro h
    simp at h
  | cons p rest ih =>
    obtain ⟨k0, v⟩ := p
    intro h
    rw [bumpExisting]
    by_cases heq : (k0 == k) = true
    · rw [if_pos heq]
      exact ⟨_, rfl, by simp⟩
    · rw [if_neg heq]
      have hk : k ∈ rest.map Prod.fst := by
        simp only [List.map_cons, List.mem_cons] at h
        rcases h with h | h
        · exact absurd h.symm (by simpa using heq)
        · exact h
      obtain ⟨d2, hd2, hkeys⟩ := ih hk
      rw [hd2]
      exact ⟨_, rfl, by simp [hkeys]⟩

/-- Folding `bumpExisting` over keys that are all present succeeds and keeps
the key set. -/
theorem foldlM_bumpExisting_some [BEq α] [LawfulBEq α] :
    ∀ (ks : List α) (d : List (α × Nat)), (∀ s ∈ ks, s ∈ d.map Prod.fst) →
      ∃ d2, ks.foldlM (fun mc s => bumpExisting s mc) d = some d2 ∧
        d2.map Prod.fst = d.map Prod.fst := by
  intro ks
  induction ks with
  | nil =>
    intro d _
    exact ⟨d, rfl, rfl⟩
  | cons s rest ih =>
    intro d h
    obtain ⟨d1, hd1, hk1⟩ := bumpExisting_some s d (h s (by simp))
    obtain ⟨d2, hd2, hk2⟩ := ih d1 (fun x hx => hk1 ▸ h x (by simp [hx]))
    refine ⟨d2, ?_, hk2.trans hk1⟩
    rw [List.foldlM_cons, hd1]
    simpa using hd2

/-- A successful summary fold adds the processed length to both counting
dictionaries' value sums. -/
theorem foldlM_summary_sums :
    ∀ (dets : List MergedDet) (st st2),
      dets.foldlM summaryStep st = some st2 →
      sumVals st2.1 = sumVals st.1 + dets.length ∧
        sumVals st2.2.1 = sumVals st.2.1 + dets.length := by
  intro dets
  induction dets with
  | nil =>
    intro st st2 h
    simp only [List.foldlM_nil] at h
    cases h
    simp
  | cons det rest ih =>
    intro st st2 h
    rw [List.foldlM_cons] at h
    cases hstep : summaryStep st det with
    | none =>
      rw [hstep] at h
      exact Option.noConfusion h
    | some st1 =>
      rw [hstep] at h
      have h2 : rest.foldlM summaryStep st1 = some st2 := h
      have hsums := ih st1 st2 h2
      simp only [summaryStep] at hstep
      cases hmc : det.sources.foldlM (fun mc s => bumpExisting s mc) st.2.2 with
      | none =>
        rw [hmc] at hstep
        simp at hstep
      | some mc =>
        rw [hmc] at hstep
        have hstep2 : some (bumpKey det.class_name st.1,
            bumpKey det.num_models_detected st.2.1, mc) = some st1 := hstep
        cases hstep2
        simp only [List.length_cons]
        rw [hsums.1, hsums.2]
        simp only [sumVals_bumpKey]
        omega

/-- The summary fold succeeds when every recorded source is a key of the
contributions dictionary. -/
theorem foldlM_summary_some :
    ∀ (dets : List MergedDet) (st),
      (∀ m ∈ dets, ∀ s ∈ m.sources, s ∈ st.2.2.map Prod.fst) →
      ∃ st2, dets.foldlM summaryStep st = some st2 := by
  intro dets
  induction dets with
  | nil =>
    intro st _
    exact ⟨st, rfl⟩
  | cons det rest ih =>
    intro st h
    obtain ⟨mc, hmc, hkeys⟩ :=
      foldlM_bumpExisting_some det.sources st.2.2 (h det (by simp))
    have hstep : summaryStep st det =
        some (bumpKey det.class_name st.1, bumpKey det.num_models_detected st.2.1, mc) := by
      simp only [summaryStep]
      rw [hmc]
      rfl
    obtain ⟨st2, hst2⟩ := ih
      (bumpKey det.class_name st.1, bumpKey det.num_models_detected st.2.1, mc)
      (fun m hm s hs => by
        rw [show (bumpKey det.class_name st.1, bumpKey det.num_models_detected st.2.1,
          mc).2.2 = mc from rfl, hkeys]
        exact h m (by simp [hm]) s hs)
    refine ⟨st2, ?_⟩
    rw [List.foldlM_cons, hstep]
    simpa using hst2

/-- On a list whose sources all come from the three detectors, the summary
succeeds and both counting dictionaries sum to the list length. -/
theorem get_combined_summary_sums (dets : List MergedDet)
    (h : ∀ m ∈ dets, ∀ s ∈ m.sources,
      s ∈ (["yolo", "detectron2", "floorplan"] : List String)) :
    ∃ sm, get_combined_summary dets = some sm ∧
      sm.total_detections = dets.length ∧
      sumVals sm.detections_by_class = dets.length ∧
      sumVals sm.detections_by_source_count = dets.length := by
  obtain ⟨st2, hst2⟩ := foldlM_summary_some dets
    ([], [(1, 0), (2, 0), (3, 0)], [("yolo", 0), ("detectron2", 0), ("floorplan", 0)])
    (by simpa using h)
  have hsums := foldlM_summary_sums dets _ st2 hst2
  have hsm : get_combined_summary dets = some
      { total_detections := dets.length
        detections_by_class := st2.1
        detections_by_source_count := st2.2.1
        model_contributions := st2.2.2
        detection_details := dets
        unique_classes := st2.1.length } := by
    unfold get_combined_summary
    rw [hst2]
    rfl
  exact ⟨_, hsm, rfl, by simpa [sumVals] using hsums.1, by simpa [sumVals] using hsums.2⟩

example : normalize_class_name "door" = "door" := by decide
example : titleCase "living room" = "Living Room" := by decide
example : calculate_iou ⟨0, 0, 10, 10⟩ ⟨20, 20, 30, 30⟩ = 0 := by
  norm_num [calculate_iou, pyMax, pyMin]
example : calculate_iou ⟨100, 100, 200, 200⟩ ⟨105, 102, 198, 199⟩ = 9021 / 10000 := by
  norm_num [calculate_iou, pyMax, pyMin]

/-! ## Claim theorems -/

/-- C2: fusing source A's `door` `(100,100,200,200)` at confidence `0.90`
(yolo, weight 1) with source B's `door` `(105,102,198,199)` at confidence
`0.80` (detectron2, weight 1) under `iou_threshold = 0.3` yields exactly one
cluster: class `"Door"`, sources `[A, B]`, confidence `(0.90+0.80)/2 =
0.85 = 17/20`, and the seed's bbox `(100,100,200,200)`. -/
theorem claim_C2 :
    merge_detections [doorDetA] [doorDetB] [] (3 / 10) defaultWeights = [mergedDoorAB] := by
  norm_num +decide [merge_detections, allDetections, tagDets, doorDetA, doorDetB,
    defaultWeights, mergedDoorAB, sortByWeightedDesc, insertByWeighted, greedyClusters,
    buildCluster, initialCluster, absorbOne, finalizeCluster, matchesSeed, dictInsert,
    are_same_class, calculate_iou, pyMax, pyMin]

/-- C4: `calculate_iou` is symmetric, and reflexively `1` on boxes of
positive area. -/
theorem claim_C4 (a b : BBox) :
    calculate_iou a b = calculate_iou b a ∧
      (a.x1 < a.x2 → a.y1 < a.y2 → calculate_iou a a = 1) :=
  ⟨calculate_iou_comm a b, fun h1 h2 => calculate_iou_self a h1 h2⟩

/-- Witness for C4 at concrete boxes. -/
theorem claim_C4_witness :
    calculate_iou ⟨0, 0, 10, 10⟩ ⟨5, 5, 20, 20⟩ = calculate_iou ⟨5, 5, 20, 20⟩ ⟨0, 0, 10, 10⟩ ∧
      calculate_iou ⟨0, 0, 10, 10⟩ ⟨0, 0, 10, 10⟩ = 1 :=
  ⟨(claim_C4 ⟨0, 0, 10, 10⟩ ⟨5, 5, 20, 20⟩).1,
    (claim_C4 ⟨0, 0, 10, 10⟩ ⟨5, 5, 20, 20⟩).2 (by norm_num) (by norm_num)⟩

/-- C6: `calculate_iou` always returns a value in `[0, 1]`, for all boxes,
degenerate or inverted ones included. -/
theorem claim_C6 (a b : BBox) : 0 ≤ calculate_iou a b ∧ calculate_iou a b ≤ 1 :=
  calculate_iou_nonneg_le_one a b

/-- C9: `normalize_class_name` is idempotent — every canonical output of the
keyword rules, the synonym table, and the lower-case/trim fallback is a fixed
point. -/
theorem claim_C9 (s : String) :
    normalize_class_name (normalize_class_name s) = normalize_class_name s :=
  normalize_class_name_idem s

/-- C1 fails on the code: with two overlapping same-class `yolo` detections,
the merged cluster's `sources` list holds `yolo` twice (not distinct), and
`num_models_detected = 2` differs from the one distinct contributing
source. -/
theorem claim_C1_counterexample :
    ∃ m ∈ merge_detections [doorDupHi, doorDupLo] [] [] (3 / 10) defaultWeights,
      ¬ m.sources.Nodup ∧ m.num_models_detected ≠ m.sources.dedup.length := by
  have heval : merge_detections [doorDupHi, doorDupLo] [] [] (3 / 10) defaultWeights =
      [mergedDoorDup] := by
    norm_num +decide [merge_detections, allDetections, tagDets, doorDupHi, doorDupLo,
      defaultWeights, mergedDoorDup, sortByWeightedDesc, insertByWeighted, greedyClusters,
      buildCluster, initialCluster, absorbOne, finalizeCluster, matchesSeed, dictInsert,
      are_same_class, calculate_iou, pyMax, pyMin]
  rw [heval]
  exact ⟨mergedDoorDup, by simp, by decide, by decide⟩

/-- C1 amended: in every emitted cluster `source_confidences` has at most one
entry per source (distinct keys) and `num_models_detected` equals the length
of the non-empty `sources` list; but `sources` is not duplicate-free — a
second overlapping same-class detection from the same source is merged into
the cluster, so `num_models_detected` counts absorbed detections, not
distinct sources. -/
theorem claim_C1 (y d2 fp : List RawDet) (thr : ℚ) (w : Weights) :
    ∀ m ∈ merge_detections y d2 fp thr w,
      (m.source_confidences.map Prod.fst).Nodup ∧
        m.num_models_detected = m.sources.length ∧ m.sources ≠ [] := by
  rw [merge_detections_eq]
  intro m hm
  rw [List.mem_map] at hm
  obtain ⟨c, hc, rfl⟩ := hm
  refine ⟨buildCluster_keys_nodup c.1 c.2, ?_, ?_⟩
  · rw [buildCluster_num, buildCluster_sources]
    simp
    omega
  · rw [buildCluster_sources]
    simp

/-- Witness for the amended C1 at the duplicated-source input. -/
theorem claim_C1_witness :
    ((mergedDoorDup.source_confidences.map Prod.fst).Nodup ∧
      mergedDoorDup.num_models_detected = mergedDoorDup.sources.length ∧
        mergedDoorDup.sources ≠ []) := by
  have heval : merge_detections [doorDupHi, doorDupLo] [] [] (3 / 10) defaultWeights =
      [mergedDoorDup] := by
    norm_num +decide [merge_detections, allDetections, tagDets, doorDupHi, doorDupLo,
      defaultWeights, mergedDoorDup, sortByWeightedDesc, insertByWeighted, greedyClusters,
      buildCluster, initialCluster, absorbOne, finalizeCluster, matchesSeed, dictInsert,
      are_same_class, calculate_iou, pyMax, pyMin]
  exact claim_C1 [doorDupHi, doorDupLo] [] [] (3 / 10) defaultWeights mergedDoorDup
    (by rw [heval]; simp)

/-- C3 fails on the code: `"kitchen patio"` contains the keyword `"patio"`
yet normalizes to `"kitchen"`, because the earlier kitchen rule wins. -/
theorem claim_C3_counterexample :
    normalize_class_name "kitchen patio" = "kitchen" ∧
      containsStr (lowerTrim "kitchen patio") "patio" = true ∧
      ("kitchen" : String) ≠ "bedroom" :=
  ⟨by decide, by decide, by decide⟩

/-- C3 amended: the listed concrete normalizations hold; an input containing
a balcony/terrace/patio or foyer/entry/entrance/hallway/corridor keyword
normalizes to `"bedroom"` provided no keyword of an earlier rule also occurs
in it (first-match-wins); and when no keyword rule fires at all, the result
is the exact-synonym lookup of the lower-cased trimmed input, or that string
unchanged. -/
theorem claim_C3 :
    (normalize_class_name "Bedroom 2" = "bedroom" ∧
      normalize_class_name "Master Bedroom" = "bedroom" ∧
      normalize_class_name "WC" = "toilet" ∧
      normalize_class_name "Living Room" = "living room" ∧
      normalize_class_name "couch" = "sofa") ∧
    (∀ s : String,
      matchesAnyKeyword (lowerTrim s) ["bedroom", "bed room"] = false →
      matchesAnyKeyword (lowerTrim s)
        ["bathroom", "bath room", "restroom", "washroom", "wc", "toilet", "lavatory"] = false →
      matchesAnyKeyword (lowerTrim s) ["kitchen", "kitchenette"] = false →
      matchesAnyKeyword (lowerTrim s) ["living room", "livingroom", "lounge", "family room"]
        = false →
      matchesAnyKeyword (lowerTrim s) ["dining room", "diningroom", "dining area", "dining table"]
        = false →
      (matchesAnyKeyword (lowerTrim s) ["balcony", "terrace", "patio"] = true ∨
        matchesAnyKeyword (lowerTrim s) ["foyer", "entry", "entrance", "hallway", "corridor"]
          = true) →
      normalize_class_name s = "bedroom") ∧
    (∀ s : String, scanPatterns (lowerTrim s) pattern_mappings = none →
      normalize_class_name s =
        (match exact_synonyms.lookup (lowerTrim s) with
          | some syn => syn
          | none => lowerTrim s)) := by
  refine ⟨⟨by decide, by decide, by decide, by decide, by decide⟩, ?_, ?_⟩
  · intro s h1 h2 h3 h4 h5 h6
    have hscan : scanPatterns (lowerTrim s) pattern_mappings = some "bedroom" := by
      simp only [pattern_mappings, scanPatterns, h1, h2, h3, h4, h5, Bool.false_eq_true,
        if_false]
      rcases h6 with h6 | h7
      · rw [if_pos h6]
      · by_cases hb : matchesAnyKeyword (lowerTrim s) ["balcony", "terrace", "patio"] = true
        · rw [if_pos hb]
        · rw [if_neg hb, if_pos h7]
    exact normalize_eq_of_scan hscan
  · intro s hscan
    rcases hlook : exact_synonyms.lookup (lowerTrim s) with _ | v
    · rw [normalize_eq_fallback hscan hlook]
    · rw [normalize_eq_of_lookup hscan hlook]

/-- Witness for the amended C3: `"Balcony"` matches no earlier rule and
normalizes to `"bedroom"`; the fallback clause applies to `"door"`. -/
theorem claim_C3_witness :
    normalize_class_name "Balcony" = "bedroom" ∧ normalize_class_name "door" = "door" :=
  ⟨claim_C3.2.1 "Balcony" (by decide) (by decide) (by decide) (by decide) (by decide)
      (Or.inl (by decide)),
    claim_C3.2.2 "door" (by decide)⟩

/-- C5: a degenerate box (`x2 ≤ x1` or `y2 ≤ y1`) has IoU `0` against every
box, in both argument orders, with no error; hence for any non-negative
threshold a detection carrying it seeds a cluster that absorbed nothing —
it appears in the output as its own singleton cluster — is itself never
absorbed into any cluster, and absorbs no other detection. -/
theorem claim_C5 (a b : BBox) (hdeg : a.x2 ≤ a.x1 ∨ a.y2 ≤ a.y1) :
    calculate_iou a b = 0 ∧ calculate_iou b a = 0 ∧
      ∀ (thr : ℚ), 0 ≤ thr → ∀ (y d2 fp : List RawDet) (w : Weights),
        ∀ t ∈ allDetections y d2 fp w, t.bbox = a →
          buildCluster t [] ∈ merge_detections y d2 fp thr w ∧
            ∀ c ∈ mergeClusters y d2 fp thr w, t ∉ c.2 ∧ (c.1 = t → c.2 = []) := by
  refine ⟨calculate_iou_degenerate a b hdeg, calculate_iou_degenerate_right b a hdeg, ?_⟩
  intro thr hthr y d2 fp w t ht hbb
  have hdeg2 : t.bbox.x2 ≤ t.bbox.x1 ∨ t.bbox.y2 ≤ t.bbox.y1 := by
    rw [hbb]
    exact hdeg
  constructor
  · rw [merge_detections_eq]
    have hmem : t ∈ sortByWeightedDesc (allDetections y d2 fp w) :=
      (sortByWeightedDesc_perm _).mem_iff.mpr ht
    have hsing := greedy_degenerate_singleton thr hthr t hdeg2 _ hmem
    rw [List.mem_map]
    exact ⟨(t, []), hsing, rfl⟩
  · intro c hc
    unfold mergeClusters at hc
    exact ⟨greedy_degenerate_not_absorbed thr hthr t hdeg2 _ c hc,
      greedy_degenerate_seed_empty thr hthr t hdeg2 _ c hc⟩

/-- Witness for C5 at a concrete degenerate box and one-detection input. -/
theorem claim_C5_witness :
    calculate_iou ⟨5, 5, 5, 10⟩ ⟨0, 0, 10, 10⟩ = 0 ∧
      calculate_iou ⟨0, 0, 10, 10⟩ ⟨5, 5, 5, 10⟩ = 0 ∧
      buildCluster degTagged [] ∈ merge_detections [degDet] [] [] (3 / 10) defaultWeights := by
  have h := claim_C5 ⟨5, 5, 5, 10⟩ ⟨0, 0, 10, 10⟩ (by norm_num)
  refine ⟨h.1, h.2.1, ?_⟩
  refine (h.2.2 (3 / 10) (by norm_num) [degDet] [] [] defaultWeights degTagged ?_ rfl).1
  norm_num +decide [allDetections, tagDets, defaultWeights, degTagged, degDet]

/-- C7: detections whose class names do not normalize to the same canonical
class are never placed in the same cluster — all members of any emitted
cluster are pairwise same-class — even at IoU `1`: the wall/window scenario
with identical geometry yields two separate singleton clusters. -/
theorem claim_C7 :
    (∀ (y d2 fp : List RawDet) (thr : ℚ) (w : Weights),
        ∀ c ∈ mergeClusters y d2 fp thr w, ∀ t1 ∈ c.1 :: c.2, ∀ t2 ∈ c.1 :: c.2,
          are_same_class t1.class_name t2.class_name = true) ∧
      merge_detections [wallDet] [windowDet] [] (3 / 10) defaultWeights =
        [mergedWall, mergedWindow] := by
  constructor
  · intro y d2 fp thr w c hc t1 ht1 t2 ht2
    unfold mergeClusters at hc
    exact greedy_same_class thr _ c hc t1 ht1 t2 ht2
  · norm_num +decide [merge_detections, allDetections, tagDets, wallDet, windowDet,
      defaultWeights, mergedWall, mergedWindow, sortByWeightedDesc, insertByWeighted,
      greedyClusters, buildCluster, initialCluster, absorbOne, finalizeCluster, matchesSeed,
      dictInsert, are_same_class, calculate_iou, pyMax, pyMin]

/-- Witness for C7: instantiating the pairwise-same-class invariant on the
wall cluster of the concrete scenario. -/
theorem claim_C7_witness : are_same_class "wall" "wall" = true := by
  have heval : mergeClusters [wallDet] [windowDet] [] (3 / 10) defaultWeights =
      [({ toRawDet := wallDet, source := "yolo", weighted_confidence := 9 / 10 }, []),
        ({ toRawDet := windowDet, source := "detectron2", weighted_confidence := 8 / 10 }, [])]
      := by
    norm_num +decide [mergeClusters, allDetections, tagDets, wallDet, windowDet,
      defaultWeights, sortByWeightedDesc, insertByWeighted, greedyClusters, matchesSeed,
      are_same_class, calculate_iou, pyMax, pyMin]
  exact claim_C7.1 [wallDet] [windowDet] [] (3 / 10) defaultWeights
    ({ toRawDet := wallDet, source := "yolo", weighted_confidence := 9 / 10 }, [])
    (by rw [heval]; simp)
    { toRawDet := wallDet, source := "yolo", weighted_confidence := 9 / 10 } (by simp)
    { toRawDet := wallDet, source := "yolo", weighted_confidence := 9 / 10 } (by simp)

/-- C8: on any fused output the summary succeeds (every source is a known
key) and satisfies the conservation equations: the per-class counts and the
per-source-count buckets each sum to `total_detections`, which is the length
of the merged list. -/
theorem claim_C8 (y d2 fp : List RawDet) (thr : ℚ) (w : Weights) :
    ∃ sm, get_combined_summary (merge_detections y d2 fp thr w) = some sm ∧
      sm.total_detections = (merge_detections y d2 fp thr w).length ∧
      sumVals sm.detections_by_class = sm.total_detections ∧
      sumVals sm.detections_by_source_count = sm.total_detections := by
  obtain ⟨sm, h1, h2, h3, h4⟩ :=
    get_combined_summary_sums _ (merged_sources_mem y d2 fp thr w)
  exact ⟨sm, h1, h2, h3.trans h2.symm, h4.trans h2.symm⟩

/-- C10: greedy fusion partitions its input — the cluster membership counts
(`num_models_detected`) sum to the number of tagged input detections, the
output is never longer than the input, and a non-empty combined input yields
a non-empty output. -/
theorem claim_C10 (y d2 fp : List RawDet) (thr : ℚ) (w : Weights) :
    ((merge_detections y d2 fp thr w).map (fun m => m.num_models_detected)).sum =
        (allDetections y d2 fp w).length ∧
      (merge_detections y d2 fp thr w).length ≤ (allDetections y d2 fp w).length ∧
      (allDetections y d2 fp w ≠ [] → merge_detections y d2 fp thr w ≠ []) := by
  refine ⟨?_, ?_, ?_⟩
  · rw [merge_detections_eq]
    unfold mergeClusters
    rw [List.map_map]
    have h1 : (greedyClusters thr (sortByWeightedDesc (allDetections y d2 fp w))).map
        ((fun m => m.num_models_detected) ∘ (fun c => buildCluster c.1 c.2)) =
        (greedyClusters thr (sortByWeightedDesc (allDetections y d2 fp w))).map
          (fun c => (c.1 :: c.2).length) := by
      apply List.map_congr_left
      intro c _
      have := buildCluster_num c.1 c.2
      simp only [Function.comp_apply, this, List.length_cons]
      omega
    rw [h1]
    have h2 : ((greedyClusters thr (sortByWeightedDesc (allDetections y d2 fp w))).map
        (fun c => (c.1 :: c.2).length)).sum =
        (((greedyClusters thr (sortByWeightedDesc (allDetections y d2 fp w))).map
          (fun c => c.1 :: c.2)).map List.length).sum := by
      rw [List.map_map]
      rfl
    rw [h2, ← List.length_flatten]
    rw [(greedy_members_perm thr _).length_eq]
    exact (sortByWeightedDesc_perm _).length_eq
  · rw [merge_detections_eq]
    unfold mergeClusters
    rw [List.length_map]
    exact le_trans (greedy_length_le thr _) (le_of_eq (sortByWeightedDesc_perm _).length_eq)
  · intro hne
    rw [merge_detections_eq]
    unfold mergeClusters
    intro hmap
    have hsort : sortByWeightedDesc (allDetections y d2 fp w) ≠ [] := by
      intro h0
      have hlen := (sortByWeightedDesc_perm (allDetections y d2 fp w)).length_eq
      rw [h0] at hlen
      exact hne (List.length_eq_zero.mp hlen.symm)
    exact greedy_ne_nil thr _ hsort (List.map_eq_nil_iff.mp hmap)

/-- Witness for C10 at a concrete one-detection input. -/
theorem claim_C10_witness :
    ((merge_detections [wallDet] [] [] (3 / 10) defaultWeights).map
        (fun m => m.num_models_detected)).sum =
        (allDetections [wallDet] [] [] defaultWeights).length ∧
      merge_detections [wallDet] [] [] (3 / 10) defaultWeights ≠ [] :=
  ⟨(claim_C10 [wallDet] [] [] (3 / 10) defaultWeights).1,
    (claim_C10 [wallDet] [] [] (3 / 10) defaultWeights).2.2
      (by simp [allDetections, tagDets])⟩

end DetectionMerger
